import Mathlib

/-!
Verification of the gate-server repository: the `structparse` declarative
serialization framework (`structparse/structdef.py`) and the controller API
(`gateserver/controller_api.py`).  Buffers (`bytes`) are modelled as `List Nat`,
Python exceptions as an explicit `Err` sum returned through `Except`.
-/

/-- The exception kinds the modelled code can raise.  `badMessage` models
`BadMessageError`; the others model the built-in Python exceptions that the
code can raise (`ValueError`, `TypeError`, `KeyError`, `IndexError`). -/
inductive Err where
  | badMessage (msg : String)
  | valueError (msg : String)
  | typeError (msg : String)
  | keyError
  | indexError
deriving DecidableEq

/-- Python values flowing through the serialization framework: integers,
byte strings, and instances of struct classes.  An instance records the
identity of its class (`classId`) and its field values in declaration order,
mirroring a namedtuple instance. -/
inductive Val where
  | int (n : Int)
  | bytes (bs : List Nat)
  | inst (classId : Nat) (fields : List Val)

/-- The class id of a value when it is a struct instance (`v.__class__`). -/
def Val.classIdOf : Val → Option Nat
  | .inst i _ => some i
  | _ => none

/-- Test `args[0].__class__ is cls` for the class with identity `cid`. -/
def isInstOf (cid : Nat) (v : Val) : Bool :=
  v.classIdOf == some cid

/-- A serializable type (`structdef.Type`): it can unpack a value from the
front of a buffer, pack a value to bytes, and be called as a constructor on a
value (`coerce`, modelling `field_types[n](v)`).  `valid` is the spec-side
notion of a well-formed value of this type, used to state the laws. -/
structure Ty where
  id : Nat
  unpack_from : List Nat → Except Err (Val × List Nat)
  pack : Val → List Nat
  coerce : Val → Except Err Val
  valid : Val → Bool

/-- Method `Type.unpack` (structdef.py lines 25-33): unpack the whole buffer,
raising `ValueError` when a non-empty remainder is left over. -/
def Ty.unpack (t : Ty) (buf : List Nat) : Except Err Val :=
  match t.unpack_from buf with
  | .error e => .error e
  | .ok (x, rest) =>
    if 0 < rest.length then .error (.valueError ("buffer size != struct size"))
    else .ok x

/-- A struct schema produced by `struct(name, *fields)`: a class identity, the
class name, and the ordered `(fieldType, fieldName)` pairs. -/
structure Schema where
  id : Nat
  name : String
  fields : List (Ty × String)

/-- Field types `cls._fieldtypes`. -/
def Schema.fieldtypes (s : Schema) : List Ty :=
  s.fields.map Prod.fst

/-- Field names `cls._fields` (the namedtuple field names). -/
def Schema.fieldnames (s : Schema) : List String :=
  s.fields.map Prod.snd

/-- The map `field_types = dict(zip(cls._fields, cls._fieldtypes))`, as an
association list in insertion order. -/
def Schema.field_types (s : Schema) : List (String × Ty) :=
  s.fields.map (fun p => (p.2, p.1))

/-- Python dict insertion: overwrite in place when the key exists, append
otherwise. -/
def dictInsert (d : List (String × Val)) (k : String) (v : Val) : List (String × Val) :=
  if d.any (fun p => p.1 == k) then d.map (fun p => if p.1 == k then (k, v) else p)
  else d ++ [(k, v)]

/-- Building a Python dict from a sequence of key/value pairs
(`dict(zip(...), **kwargs)`): later occurrences of a key overwrite earlier
ones, first occurrence fixes the position. -/
def dictOf (l : List (String × Val)) : List (String × Val) :=
  l.foldl (fun d p => dictInsert d p.1 p.2) []

/-- One step of the conversion comprehension
`{ n: field_types[n](v) for (n, v) in to_convert.items() }`: look the field
type up by name (`KeyError` when absent, as Python raises) and call it on the
value. -/
def convertOne (all : List (String × Ty)) (p : String × Val) : Except Err (String × Val) :=
  match all.find? (fun q => q.1 == p.1) with
  | none => .error .keyError
  | some q =>
    match q.2.coerce p.2 with
    | .error e => .error e
    | .ok c => .ok (p.1, c)

/-- The whole conversion comprehension, in dict iteration order; any raised
error propagates immediately. -/
def convertAll (all : List (String × Ty)) : List (String × Val) → Except Err (List (String × Val))
  | [] => .ok []
  | p :: rest =>
    match convertOne all p with
    | .error e => .error e
    | .ok q =>
      match convertAll all rest with
      | .error e => .error e
      | .ok qs => .ok (q :: qs)

/-- Step `super().__new__(cls, **converted)`: the namedtuple constructor binds the
keyword dict to the declared field names in declaration order; a missing name
means failure (`TypeError` in Python). -/
def fieldLookup (converted : List (String × Val)) : List String → Option (List Val)
  | [] => some []
  | n :: ns =>
    match converted.find? (fun p => p.1 == n) with
    | none => none
    | some p =>
      match fieldLookup converted ns with
      | none => none
      | some vs => some (p.2 :: vs)

/-- The general branch of `_StructMixin.__new__` (structdef.py lines 41-46):
arity check, `to_convert = dict(zip(cls._fields, args), **kwargs)`, coercion of
every value through its field's type, and the namedtuple construction. -/
def structNewGeneral (s : Schema) (args : List Val) (kwargs : List (String × Val)) :
    Except Err Val :=
  if args.length + kwargs.length ≠ s.fields.length then
    .error (.typeError ("Must be initialized with exactly " ++ toString s.fields.length
      ++ " arguments"))
  else
    match convertAll s.field_types (dictOf ((s.fieldnames.zip args) ++ kwargs)) with
    | .error e => .error e
    | .ok converted =>
      match fieldLookup converted s.fieldnames with
      | none => .error (.typeError ("missing field value"))
      | some vals => .ok (Val.inst s.id vals)

/-- Constructor `_StructMixin.__new__` (structdef.py lines 38-46): a sole positional
argument that is already an instance of this very class is returned unchanged
(identity reuse); everything else goes through the general construction. -/
def structNew (s : Schema) (args : List Val) (kwargs : List (String × Val)) :
    Except Err Val :=
  match args, kwargs with
  | [a], [] => if isInstOf s.id a then .ok a else structNewGeneral s [a] []
  | _, _ => structNewGeneral s args kwargs

/-- The loop body of `_StructMixin.unpack_from` (structdef.py lines 48-55):
`vals = []; for t in cls._fieldtypes: val, buf = t.unpack_from(buf);
vals.append(val)`, with the accumulator made explicit. -/
def unpackVals (ts : List Ty) (buf : List Nat) (vals : List Val) :
    Except Err (List Val × List Nat) :=
  match ts with
  | [] => .ok (vals, buf)
  | t :: ts2 =>
    match t.unpack_from buf with
    | .error e => .error e
    | .ok (val, buf2) => unpackVals ts2 buf2 (vals ++ [val])

/-- Method `_StructMixin.unpack_from`: run the loop, then `return cls(*vals), buf`. -/
def structUnpackFrom (s : Schema) (buf : List Nat) : Except Err (Val × List Nat) :=
  match unpackVals s.fieldtypes buf [] with
  | .error e => .error e
  | .ok (vals, buf2) =>
    match structNew s vals [] with
    | .error e => .error e
    | .ok v => .ok (v, buf2)

/-- The concatenation in `_StructMixin.pack`:
`b''.join([t.pack(x) for t, x in zip(self._fieldtypes, self)])`. -/
def packFields (ts : List Ty) (vs : List Val) : List Nat :=
  ((ts.zip vs).map (fun p => p.1.pack p.2)).flatten

/-- Method `_StructMixin.pack` (structdef.py lines 57-59).  `self` is always an
instance of the class, so the non-instance arm is unreachable. -/
def structPack (s : Schema) (v : Val) : List Nat :=
  match v with
  | .inst _ vs => packFields s.fieldtypes vs
  | _ => []

/-- Pointwise validity of a value list against a field-type list. -/
def allValid : List Ty → List Val → Bool
  | [], [] => true
  | t :: ts, v :: vs => t.valid v && allValid ts vs
  | _, _ => false

/-- The spec-side notion of a valid value of a struct type: an instance of
this very class with one valid value per declared field. -/
def structValid (s : Schema) (v : Val) : Bool :=
  match v with
  | .inst i vs => i == s.id && vs.length == s.fields.length && allValid s.fieldtypes vs
  | _ => false

/-- The serializable type built by `struct(name, *fields)`: the class bundles
`unpack_from`, `pack`, and its constructor (calling the class on one value is
exactly the coercion a parent struct applies to it). -/
def mkStructTy (s : Schema) : Ty :=
  { id := s.id
    unpack_from := structUnpackFrom s
    pack := structPack s
    coerce := fun v => structNew s [v] []
    valid := structValid s }

/-- Restatement of the spec's description of struct `unpack_from`
(the claim's wording, not the source): sequentially apply each field type's
`unpack_from` to the shrinking remainder in declaration order, fail fast on
the first error, and return the value list with the final remainder. -/
def unpackValsSpec (ts : List Ty) (buf : List Nat) : Except Err (List Val × List Nat) :=
  match ts with
  | [] => .ok ([], buf)
  | t :: ts2 =>
    match t.unpack_from buf with
    | .error e => .error e
    | .ok (v, buf2) =>
      match unpackValsSpec ts2 buf2 with
      | .error e => .error e
      | .ok (vs, buf3) => .ok (v :: vs, buf3)

/-- Modelled from the spec: `checkmsg` (defined in the protocol module, which
is absent from the provided sources) raises `BadMessageError` with the given
reason when the condition is false. -/
def checkmsg (cond : Prop) [Decidable cond] (msg : String) : Except Err Unit :=
  if cond then .ok () else .error (.badMessage msg)

/-- Function `fstring` (controller_api.py lines 12-16):
`length, string = int(buf[0]), buf[1:]` -- note `buf[0]` raises `IndexError`
on an empty buffer -- then `checkmsg(length <= len(string), ...)` and
`return string[:length]`. -/
def fstring (buf : List Nat) : Except Err (List Nat) :=
  match buf with
  | [] => .error .indexError
  | b :: string =>
    match checkmsg (b ≤ string.length) ("fstring length > buffer size") with
    | .error e => .error e
    | .ok _ => .ok (string.take b)

/-- Modelled from the spec: the closed `MsgType` enumeration (declared in the
protocol module, absent from the sources).  The dispatch table handles exactly
`OPEN` and the startup assertion passes, so `OPEN` is its sole member. -/
inductive MsgType where
  | OPEN
deriving DecidableEq

/-- Modelled from the spec: the `ResponseStatus` enumeration (`S` in the
source), with outcomes `OK` and `ERR`. -/
inductive S where
  | OK
  | ERR
deriving DecidableEq

/-- The type of request handlers: `data -> (status, outData)`, where any
exception raised inside (e.g. by `fstring`) propagates. -/
abbrev Handler := List Nat → Except Err (S × Option (List Nat))

/-- The byte string `b'Hello'`. -/
def hello : List Nat := [72, 101, 108, 108, 111]

/-- The `MsgType.OPEN` entry of `process_request` (controller_api.py lines
18-21): `lambda data: ((S.OK if fstring(data) == b'Hello' else S.ERR), None)`. -/
def openHandler : Handler := fun data =>
  match fstring data with
  | .error e => .error e
  | .ok s => .ok ((if s = hello then S.OK else S.ERR), none)

/-- The dispatch table `process_request`, as the dict's key/value pairs in
insertion order. -/
def process_request : List (MsgType × Handler) :=
  [(MsgType.OPEN, openHandler)]

/-- The set `set(MsgType)`: the enumeration of every declared `MsgType` value. -/
def msgTypeAll : List MsgType := [MsgType.OPEN]

/-- Dict lookup `process_request[req_type]`. -/
def dispatch (m : MsgType) : Option Handler :=
  (process_request.find? (fun p => p.1 == m)).map Prod.snd

/-- The module-level startup assertion
`assert set(MsgType) == set(process_request)`: mutual inclusion of the
declared values and the dict's keys.  Generic in the enum and handler types so
that enlarging the enum can be talked about. -/
def startupAssert {M : Type} [DecidableEq M] {H : Type}
    (all : List M) (table : List (M × H)) : Bool :=
  all.all (fun m => decide (m ∈ table.map Prod.fst)) &&
    (table.map Prod.fst).all (fun m => decide (m ∈ all))

/-- A row returned by `db.exec_sql('SELECT key FROM controller WHERE id = %s', ...)`. -/
structure Row where
  key : List Nat

/-- Modelled from the spec: one hex digit (the address codec lives in the
utils module, absent from the sources). -/
def hexDigit (n : Nat) : Char :=
  if n < 10 then Char.ofNat (48 + n) else Char.ofNat (87 + n)

/-- Modelled from the spec: one byte as two lowercase hex digits. -/
def byte2hex (b : Nat) : String :=
  String.mk [hexDigit (b / 16 % 16), hexDigit (b % 16)]

/-- Modelled from the spec: `utils.bytes2mac`, the total binary-to-text half
of the address codec -- hex octets joined by colons. -/
def bytes2mac (bs : List Nat) : String :=
  String.intercalate (":") (bs.map byte2hex)

/-- Function `get_key_for_mac` (controller_api.py lines 5-10): query the key store,
`checkmsg(len(rs) == 1, 'unknown controllerID ')`, then `rs[0]['key']`.
The key store query is the injected `db` function, keyed by the textual MAC. -/
def get_key_for_mac (db : String → List Row) (mac : List Nat) : Except Err (List Nat) :=
  match checkmsg ((db (bytes2mac mac)).length = 1) ("unknown controllerID ") with
  | .error e => .error e
  | .ok _ =>
    match (db (bytes2mac mac)).head? with
    | some r => .ok r.key
    | none => .error .indexError

/-- The fixed packet header: protocol version, 6-byte device id, 18-byte nonce. -/
structure PacketHead where
  protocolVersion : Nat
  controllerID : List Nat
  nonce : List Nat

/-- Modelled from the spec: the protocol version constant (its concrete value
is not given by the available material; `1` is chosen as a representative). -/
def PROTOCOL_VERSION : Nat := 1

/-- Modelled from the spec: `parse_packet_head` splits the 25-byte header
`[version, 6-byte deviceID, 18-byte nonce]` from the still-encoded payload,
failing with `BadMessageError` on a short buffer or unknown version. -/
def parse_packet_head (buf : List Nat) : Except Err (PacketHead × List Nat) :=
  match buf with
  | [] => .error (.badMessage ("packet too short"))
  | v :: rest =>
    if rest.length < 24 then .error (.badMessage ("packet too short"))
    else
      match checkmsg (v = PROTOCOL_VERSION) ("unknown protocol version") with
      | .error e => .error e
      | .ok _ =>
        .ok ({ protocolVersion := v, controllerID := rest.take 6,
               nonce := (rest.drop 6).take 18 }, rest.drop 24)

/-- The authenticated request envelope head (one byte of message type). -/
structure ReqHead where
  messageType : Nat

/-- The collaborators `handle_request` consumes: the key store, and the
authenticated payload codec (`parse_r`, `make_reply_for`), which lives in the
protocol module absent from the sources and is therefore kept abstract. -/
structure Env where
  db : String → List Row
  parse_r : PacketHead → List Nat → List Nat → Except Err (ReqHead × MsgType × List Nat)
  make_reply_for : PacketHead → ReqHead → List Nat → S → Option (List Nat) → List Nat

/-- Function `handle_request` (controller_api.py lines 32-41): parse the head, resolve
the key, authenticate and decode the request, dispatch, build the reply.
`log_message` only prints and `log_bad_packet` re-raises the caught
`BadMessageError`, so the try/except is transparent to the result. -/
def handle_request (env : Env) (buf : List Nat) : Except Err (List Nat) :=
  match parse_packet_head buf with
  | .error e => .error e
  | .ok (ph, payload) =>
    match get_key_for_mac env.db ph.controllerID with
    | .error e => .error e
    | .ok key =>
      match env.parse_r ph key payload with
      | .error e => .error e
      | .ok (rh, t, indata) =>
        match dispatch t with
        | none => .error .keyError
        | some h =>
          match h indata with
          | .error e => .error e
          | .ok (status, outdata) => .ok (env.make_reply_for ph rh key status outdata)

/-- A serializable type round-trips: unpacking what a valid value packs, in
front of any continuation, returns that value and the continuation. -/
def RoundTrips (t : Ty) : Prop :=
  ∀ v rest, t.valid v = true → t.unpack_from (t.pack v ++ rest) = .ok (v, rest)

/-- Calling the type on one of its own valid values returns it unchanged
(`int(n) == n`, and for structs the identity-reuse branch). -/
def CoerceCanonical (t : Ty) : Prop :=
  ∀ v, t.valid v = true → t.coerce v = .ok v

/-- No valid value of `t` is an instance of the class `cid`: field types are
pre-existing classes, so no value of a field can be an instance of the struct
class being defined. -/
def FreshFor (t : Ty) (cid : Nat) : Prop :=
  ∀ v, t.valid v = true → isInstOf cid v = false

/-- Type `t` has fixed size `n`: any successful `unpack_from` consumes exactly `n`
bytes from the front of the buffer. -/
def HasSize (t : Ty) (n : Nat) : Prop :=
  ∀ buf v rest, t.unpack_from buf = .ok (v, rest) → buf.length = n + rest.length

/-- Modelled from the spec: a primitive one-byte integer type, standing in for
the repository's concrete primitive types (defined in the protocol module,
absent from the sources); used to instantiate the framework laws. -/
def byteTy : Ty :=
  { id := 100
    unpack_from := fun buf =>
      match buf with
      | [] => .error (.badMessage ("unexpected end of buffer"))
      | b :: rest => .ok (.int (Int.ofNat b), rest)
    pack := fun v =>
      match v with
      | .int n => [(n % 256).toNat]
      | _ => []
    coerce := fun v =>
      match v with
      | .int n => .ok (.int n)
      | _ => .error (.typeError ("an integer is required"))
    valid := fun v =>
      match v with
      | .int n => decide (0 ≤ n ∧ n < 256)
      | _ => false }

/-- A concrete two-field schema built from the primitive byte type, used to
instantiate the struct laws. -/
def pointSchema : Schema :=
  { id := 1, name := "Point", fields := [(byteTy, "x"), (byteTy, "y")] }

/-- An environment whose key store is empty and whose payload codec reports
whether it was ever reached. -/
def envEmpty : Env :=
  { db := fun _ => []
    parse_r := fun _ _ _ => .error (.badMessage ("payload decoding was reached"))
    make_reply_for := fun _ _ _ _ _ => [] }

/-- A well-formed 25-byte packet head (version 1, all-zero device id and
nonce) with an empty payload. -/
def bufUnknown : List Nat := 1 :: List.replicate 24 0

/-- The one-byte primitive has fixed size 1. -/
theorem byteTy_hasSize : HasSize byteTy 1 := by
  intro buf v rest h
  cases buf with
  | nil => simp [byteTy] at h
  | cons b bs =>
    simp [byteTy] at h
    rw [h.2]
    simp
    omega

/-- The one-byte primitive round-trips on its valid values. -/
theorem byteTy_roundTrips : RoundTrips byteTy := by
  intro v rest hv
  cases v with
  | int n =>
    simp [byteTy] at hv
    have hmod : n % 256 = n := Int.emod_eq_of_lt hv.1 hv.2
    simp [byteTy, hmod, Int.toNat_of_nonneg hv.1]
  | bytes bs => simp [byteTy] at hv
  | inst i vs => simp [byteTy] at hv

/-- Calling the one-byte primitive on a valid value returns it unchanged. -/
theorem byteTy_coerceCanonical : CoerceCanonical byteTy := by
  intro v hv
  cases v with
  | int n => simp [byteTy]
  | bytes bs => simp [byteTy] at hv
  | inst i vs => simp [byteTy] at hv

/-- No valid value of the one-byte primitive is a struct instance. -/
theorem byteTy_freshFor (cid : Nat) : FreshFor byteTy cid := by
  intro v hv
  cases v with
  | int n => simp [isInstOf, Val.classIdOf]
  | bytes bs => simp [byteTy] at hv
  | inst i vs => simp [byteTy] at hv

/-- Claim C2: the claim says `fstring` raises only `BadMessageError` on every
input buffer, including an empty one; on the empty buffer the code evaluates
`buf[0]` before any check and raises `IndexError` instead. -/
theorem fstring_empty_raises_index_error :
    fstring [] = .error Err.indexError ∧
      ∀ msg : String, Err.indexError ≠ Err.badMessage msg :=
  ⟨rfl, fun _ h => Err.noConfusion h⟩

/-- Claim C5: a declared length exceeding the remaining buffer makes `fstring`
fail with `BadMessageError` reading "fstring length > buffer size". -/
theorem fstring_overlong (b : Nat) (rest : List Nat) (h : rest.length < b) :
    fstring (b :: rest) = .error (.badMessage ("fstring length > buffer size")) := by
  have hx : ¬ (b ≤ rest.length) := Nat.not_le.mpr h
  simp [fstring, checkmsg, hx]

/-- Witness for C5 at the concrete buffer `[5]`. -/
theorem fstring_overlong_witness :
    fstring [5] = .error (.badMessage ("fstring length > buffer size")) :=
  fstring_overlong 5 [] (by decide)

/-- Claim C10: on success `fstring` returns exactly the first `length` bytes
after the length byte, and trailing bytes beyond the declared length are
ignored. -/
theorem fstring_takes_declared_length (b : Nat) (rest : List Nat) (h : b ≤ rest.length) :
    fstring (b :: rest) = .ok (rest.take b) ∧
      ∀ extra : List Nat, fstring (b :: (rest ++ extra)) = .ok (rest.take b) := by
  constructor
  · simp [fstring, checkmsg, h]
  · intro extra
    have h2 : b ≤ rest.length + extra.length := by omega
    have h3 : (rest ++ extra).take b = rest.take b := List.take_append_of_le_length h
    simp [fstring, checkmsg, h2, h3]

/-- Witness for C10 at the concrete buffer `[2, 9, 8, 7]`. -/
theorem fstring_takes_declared_length_witness :
    fstring [2, 9, 8, 7] = .ok [9, 8] :=
  (fstring_takes_declared_length 2 [9, 8, 7] (by decide)).1

/-- Claim C3: `unpack` succeeds only on a buffer of exactly the type's fixed
size, and a successful `unpack_from` that leaves a non-empty remainder makes
`unpack` fail with the `ValueError` "buffer size != struct size". -/
theorem unpack_exactness :
    (∀ (t : Ty) (n : Nat) (buf : List Nat) (x : Val),
        HasSize t n → t.unpack buf = .ok x → buf.length = n) ∧
      (∀ (t : Ty) (buf : List Nat) (x : Val) (rest : List Nat),
        t.unpack_from buf = .ok (x, rest) → rest ≠ [] →
          t.unpack buf = .error (.valueError ("buffer size != struct size"))) := by
  constructor
  · intro t n buf x hsize hok
    cases hu : t.unpack_from buf with
    | error e => simp [Ty.unpack, hu] at hok
    | ok p =>
      obtain ⟨y, rest⟩ := p
      simp only [Ty.unpack, hu] at hok
      by_cases hr : 0 < rest.length
      · rw [if_pos hr] at hok; cases hok
      · have h0 : rest.length = 0 := by omega
        have := hsize buf y rest hu
        omega
  · intro t buf x rest hu hne
    have hr : 0 < rest.length := List.length_pos.mpr hne
    simp only [Ty.unpack, hu]
    rw [if_pos hr]

/-- Witness for C3: the one-byte primitive accepts exactly one byte and
rejects a buffer with trailing garbage. -/
theorem unpack_exactness_witness :
    ([(7 : Nat)] : List Nat).length = 1 ∧
      byteTy.unpack [7, 8] = .error (.valueError ("buffer size != struct size")) :=
  ⟨unpack_exactness.1 byteTy 1 [7] (.int 7) byteTy_hasSize rfl,
    unpack_exactness.2 byteTy [7, 8] (.int 7) [8] rfl (by decide)⟩

/-- Claim C7: constructing a struct from a sole positional argument that is
already an instance of that very class returns the argument unchanged -- for
every argument value, so no field coercion is applied and no copy is made;
construction is idempotent. -/
theorem structNew_identity_reuse (s : Schema) (vs : List Val) :
    structNew s [Val.inst s.id vs] [] = .ok (Val.inst s.id vs) := by
  simp [structNew, isInstOf, Val.classIdOf]

/-- Claim C9: whenever `fstring` succeeds on the request data, the `OPEN`
entry of the dispatch table answers `(OK, None)` exactly when the decoded
string is `b'Hello'` and `(ERR, None)` otherwise. -/
theorem open_dispatch_correct (data v : List Nat) (h : fstring data = .ok v) :
    dispatch MsgType.OPEN = some openHandler ∧
      (v = hello → openHandler data = .ok (S.OK, none)) ∧
      (v ≠ hello → openHandler data = .ok (S.ERR, none)) := by
  refine ⟨rfl, ?_, ?_⟩
  · intro hv
    simp [openHandler, h, hv]
  · intro hv
    simp [openHandler, h, hv]

/-- Witness for C9 at the spec's end-to-end payload `05 'H''e''l''l''o'`. -/
theorem open_dispatch_correct_witness :
    openHandler [5, 72, 101, 108, 108, 111] = .ok (S.OK, none) :=
  (open_dispatch_correct [5, 72, 101, 108, 108, 111] hello rfl).2.1 rfl

/-- Claim C6: the startup assertion holds for the declared table, `msgTypeAll`
really enumerates `MsgType`, every message type has exactly one handler, and
-- generically, for any enum and table -- an enum value without a handler
makes the startup assertion fail. -/
theorem dispatch_exhaustive :
    (∀ m : MsgType, m ∈ msgTypeAll) ∧
      startupAssert msgTypeAll process_request = true ∧
      (∀ m : MsgType, (process_request.filter (fun p => p.1 == m)).length = 1) ∧
      (∀ (M H2 : Type) (i : DecidableEq M) (all : List M) (table : List (M × H2)) (m : M),
        m ∈ all → m ∉ table.map Prod.fst → @startupAssert M i H2 all table = false) := by
  refine ⟨?_, ?_, ?_, ?_⟩
  · intro m
    cases m
    exact List.mem_singleton.mpr rfl
  · rfl
  · intro m
    cases m
    rfl
  · intro M H2 i all table m hm hnot
    unfold startupAssert
    have h1 : (all.all (fun m => decide (m ∈ table.map Prod.fst))) = false := by
      rw [List.all_eq_false]
      exact ⟨m, hm, by simpa using hnot⟩
    rw [h1]
    rfl

/-- Witness for C6's generic part: over the two-element enum `Bool`, a table
handling only `true` fails the startup assertion. -/
theorem dispatch_exhaustive_witness :
    @startupAssert Bool instDecidableEqBool Nat [true, false] [(true, 0)] = false :=
  dispatch_exhaustive.2.2.2 Bool Nat instDecidableEqBool [true, false] [(true, 0)] false
    (by decide) (by decide)

/-- If the key store has no row for the device, `get_key_for_mac` fails with
`BadMessageError` reading "unknown controllerID " (note: not
"unknown controller"). -/
theorem get_key_for_mac_unknown (db : String → List Row) (mac : List Nat)
    (h : db (bytes2mac mac) = []) :
    get_key_for_mac db mac = .error (.badMessage ("unknown controllerID ")) := by
  simp [get_key_for_mac, checkmsg, h]

/-- Claim C4 (amended): a parseable packet whose device id has no entry in the
key store makes `handle_request` fail with `BadMessageError` reading
"unknown controllerID " -- for every payload codec `parse_r`, i.e. before any
payload decoding is attempted. -/
theorem handle_request_unknown_controller (env : Env) (buf : List Nat)
    (ph : PacketHead) (payload : List Nat)
    (hparse : parse_packet_head buf = .ok (ph, payload))
    (hdb : env.db (bytes2mac ph.controllerID) = []) :
    handle_request env buf = .error (.badMessage ("unknown controllerID ")) := by
  simp only [handle_request, hparse]
  rw [get_key_for_mac_unknown env.db ph.controllerID hdb]

/-- Counterexample for C4 as stated: with an empty key store, the failure on a
well-formed packet carries the reason "unknown controllerID " (with a trailing
space), which differs from the claimed reason "unknown controller". -/
theorem handle_request_unknown_controller_cex :
    handle_request envEmpty bufUnknown = .error (.badMessage ("unknown controllerID ")) ∧
      Err.badMessage ("unknown controllerID ") ≠ Err.badMessage ("unknown controller") :=
  ⟨rfl, by decide⟩

/-- Witness for C4's amended theorem at the concrete packet `bufUnknown`. -/
theorem handle_request_unknown_controller_witness :
    handle_request envEmpty bufUnknown = .error (.badMessage ("unknown controllerID ")) :=
  handle_request_unknown_controller envEmpty bufUnknown
    { protocolVersion := 1, controllerID := [0, 0, 0, 0, 0, 0],
      nonce := [0, 0, 0, 0, 0, 0, 0, 0, 0, 0, 0, 0, 0, 0, 0, 0, 0, 0] }
    [] rfl rfl

/-- The imperative accumulator loop of `unpack_from` agrees with the direct
recursive decomposition, with the accumulator prepended. -/
theorem unpackVals_eq_spec :
    ∀ (ts : List Ty) (buf : List Nat) (acc : List Val),
      unpackVals ts buf acc =
        match unpackValsSpec ts buf with
        | .error e => .error e
        | .ok (vs, rest) => .ok (acc ++ vs, rest) := by
  intro ts
  induction ts with
  | nil => intro buf acc; simp [unpackVals, unpackValsSpec]
  | cons t ts ih =>
    intro buf acc
    simp only [unpackVals, unpackValsSpec]
    cases t.unpack_from buf with
    | error e => rfl
    | ok p =>
      obtain ⟨v, buf2⟩ := p
      dsimp only
      rw [ih buf2 (acc ++ [v])]
      cases unpackValsSpec ts buf2 with
      | error e => rfl
      | ok q =>
        obtain ⟨vs, rest⟩ := q
        simp

/-- Claim C8: struct `unpack_from` is exactly the sequential decomposition --
each field type's `unpack_from` applied to the shrinking remainder in
declaration order with any error propagating immediately (so no partial
struct is ever produced), followed by assembling the values into one
instance via the constructor. -/
theorem struct_unpack_from_sequential (s : Schema) (buf : List Nat) :
    structUnpackFrom s buf =
      match unpackValsSpec s.fieldtypes buf with
      | .error e => .error e
      | .ok (vs, rest) =>
        match structNew s vs [] with
        | .error e => .error e
        | .ok v => .ok (v, rest) := by
  simp only [structUnpackFrom]
  rw [unpackVals_eq_spec]
  cases unpackValsSpec s.fieldtypes buf with
  | error e => rfl
  | ok p =>
    obtain ⟨vs, rest⟩ := p
    simp

/-- A `Forall₂` can remember membership of the left elements. -/
theorem forall2_mem_left {α β : Type} {r : α → β → Prop} :
    ∀ {l : List α} {l2 : List β}, List.Forall₂ r l l2 →
      List.Forall₂ (fun x y => x ∈ l ∧ r x y) l l2 := by
  intro l l2 h
  induction h with
  | nil => exact List.Forall₂.nil
  | cons hr ht ih =>
    refine List.Forall₂.cons ⟨List.mem_cons_self _ _, hr⟩ ?_
    exact List.Forall₂.imp (fun a b hx => ⟨List.mem_cons_of_mem _ hx.1, hx.2⟩) ih

/-- Every right element of a `Forall₂` is related to some left element. -/
theorem forall2_exists_left {α β : Type} {r : α → β → Prop} :
    ∀ {l : List α} {l2 : List β}, List.Forall₂ r l l2 → ∀ b ∈ l2, ∃ a ∈ l, r a b := by
  intro l l2 h
  induction h with
  | nil => intro b hb; cases hb
  | cons hr ht ih =>
    intro b hb
    rcases List.mem_cons.mp hb with rfl | hb2
    · exact ⟨_, List.mem_cons_self _ _, hr⟩
    · obtain ⟨a, ha, hra⟩ := ih b hb2
      exact ⟨a, List.mem_cons_of_mem _ ha, hra⟩

/-- In an association list with distinct keys, searching for the key of a
member finds that member. -/
theorem find_self_of_nodup {γ : Type} :
    ∀ (l : List (String × γ)), (l.map Prod.fst).Nodup →
      ∀ p ∈ l, l.find? (fun q => q.1 == p.1) = some p := by
  intro l
  induction l with
  | nil => intro _ p hp; cases hp
  | cons q l ih =>
    intro hnd p hp
    rw [List.map_cons, List.nodup_cons] at hnd
    rcases List.mem_cons.mp hp with rfl | hl
    · exact List.find?_cons_of_pos _ (by simp)
    · have hne : (q.1 == p.1) = false := by
        apply beq_eq_false_iff_ne.mpr
        intro he
        exact hnd.1 (he ▸ List.mem_map_of_mem Prod.fst hl)
      have hstep : List.find? (fun q2 : String × γ => q2.1 == p.1) (q :: l) =
          List.find? (fun q2 => q2.1 == p.1) l :=
        List.find?_cons_of_neg _ (by simp [hne])
      rw [hstep]
      exact ih hnd.2 p hl

/-- Each pair of same-index elements of two equally long lists is a member of
their zip. -/
theorem forall2_zip_mem {γ : Type} :
    ∀ (names : List String) (xs : List γ), names.length = xs.length →
      List.Forall₂ (fun n x => (n, x) ∈ names.zip xs) names xs := by
  intro names
  induction names with
  | nil =>
    intro xs h
    cases xs with
    | nil => exact List.Forall₂.nil
    | cons x xs => cases h
  | cons n names ih =>
    intro xs h
    cases xs with
    | nil => cases h
    | cons x xs =>
      rw [List.zip_cons_cons]
      refine List.Forall₂.cons (List.mem_cons_self _ _) ?_
      have := ih xs (by simpa using h)
      exact List.Forall₂.imp (fun a b hm => List.mem_cons_of_mem _ hm) this

/-- Folding dict insertion over pairs with distinct keys appends them all. -/
theorem dictOf_go :
    ∀ (l acc : List (String × Val)), ((acc ++ l).map Prod.fst).Nodup →
      List.foldl (fun d p => dictInsert d p.1 p.2) acc l = acc ++ l := by
  intro l
  induction l with
  | nil => intro acc h; simp
  | cons p l ih =>
    intro acc h
    have hmem : p.1 ∉ acc.map Prod.fst := by
      intro hin
      rw [List.map_append, List.map_cons] at h
      rcases List.nodup_append.mp h with ⟨_, _, hdisj⟩
      exact hdisj hin (List.mem_cons_self _ _)
    have hc : ¬ (acc.any (fun q => q.1 == p.1) = true) := by
      intro hany
      rw [List.any_eq_true] at hany
      obtain ⟨q, hq, hbeq⟩ := hany
      have : q.1 = p.1 := beq_iff_eq.mp hbeq
      exact hmem (this ▸ List.mem_map_of_mem Prod.fst hq)
    have hins : dictInsert acc p.1 p.2 = acc ++ [p] := by
      unfold dictInsert
      rw [if_neg hc]
    have hrearr : (acc ++ [p]) ++ l = acc ++ p :: l := by simp
    rw [List.foldl_cons, hins, ih (acc ++ [p]) (by rw [hrearr]; exact h), hrearr]

/-- A dict built from pairs with distinct keys is just those pairs. -/
theorem dictOf_nodup {l : List (String × Val)} (h : (l.map Prod.fst).Nodup) :
    dictOf l = l := by
  have := dictOf_go l [] (by simpa using h)
  simpa [dictOf] using this

/-- The conversion comprehension leaves an association list unchanged when
every entry's field type exists and fixes its value. -/
theorem convertAll_fixed (all : List (String × Ty)) :
    ∀ (l : List (String × Val)),
      (∀ p ∈ l, ∃ t : Ty, all.find? (fun q => q.1 == p.1) = some (p.1, t) ∧
        t.coerce p.2 = .ok p.2) →
      convertAll all l = .ok l := by
  intro l
  induction l with
  | nil => intro _; rfl
  | cons p l ih =>
    intro h
    obtain ⟨t, hf, hc⟩ := h p (List.mem_cons_self _ _)
    have hrest := ih (fun q hq => h q (List.mem_cons_of_mem _ hq))
    simp only [convertAll, convertOne, hf, hc, hrest]

/-- The namedtuple construction recovers the value list when each declared
name looks up its own value. -/
theorem fieldLookup_of_forall2 (converted : List (String × Val)) :
    ∀ {names : List String} {vs : List Val},
      List.Forall₂ (fun n v => converted.find? (fun p => p.1 == n) = some (n, v)) names vs →
      fieldLookup converted names = some vs := by
  intro names vs h
  induction h with
  | nil => rfl
  | cons hf ht ih => simp only [fieldLookup, hf, ih]

/-- Predicate `allValid` as a pointwise relation. -/
theorem allValid_forall2 :
    ∀ (ts : List Ty) (vs : List Val), allValid ts vs = true →
      List.Forall₂ (fun (t : Ty) v => t.valid v = true) ts vs := by
  intro ts
  induction ts with
  | nil =>
    intro vs h
    cases vs with
    | nil => exact List.Forall₂.nil
    | cons v vs => simp [allValid] at h
  | cons t ts ih =>
    intro vs h
    cases vs with
    | nil => simp [allValid] at h
    | cons v vs =>
      simp only [allValid, Bool.and_eq_true] at h
      exact List.Forall₂.cons h.1 (ih vs h.2)

/-- Unpacking the concatenation of packed field values recovers them all, in
front of any continuation. -/
theorem unpackVals_pack :
    ∀ {ts : List Ty} {vs : List Val},
      List.Forall₂ (fun (t : Ty) v =>
        ∀ r2 : List Nat, t.unpack_from (t.pack v ++ r2) = .ok (v, r2)) ts vs →
      ∀ (rest : List Nat) (acc : List Val),
        unpackVals ts (packFields ts vs ++ rest) acc = .ok (acc ++ vs, rest) := by
  intro ts vs h
  induction h with
  | nil => intro rest acc; simp [unpackVals, packFields]
  | @cons t v ts2 vs2 hr ht ih =>
    intro rest acc
    have hpf : packFields (t :: ts2) (v :: vs2) = t.pack v ++ packFields ts2 vs2 := by
      simp [packFields]
    rw [hpf, List.append_assoc]
    simp only [unpackVals, hr, ih]
    simp

/-- Positional construction `cls(*vals)` with one value per field, distinct
field names, coercions that fix the values, and no value that is an instance
of this very class, builds exactly the expected instance. -/
theorem structNew_positional (s : Schema) (vs : List Val)
    (hnodup : s.fieldnames.Nodup)
    (hlen : vs.length = s.fields.length)
    (hco : List.Forall₂ (fun (t : Ty) v => t.coerce v = .ok v) s.fieldtypes vs)
    (hni : ∀ v ∈ vs, isInstOf s.id v = false) :
    structNew s vs [] = .ok (Val.inst s.id vs) := by
  have hnames_len : s.fieldnames.length = s.fields.length := by
    simp [Schema.fieldnames]
  have hkeys : (s.fieldnames.zip vs).map Prod.fst = s.fieldnames :=
    List.map_fst_zip _ _ (by omega)
  have hdict : dictOf ((s.fieldnames.zip vs) ++ []) = s.fieldnames.zip vs := by
    rw [List.append_nil]
    exact dictOf_nodup (by rw [hkeys]; exact hnodup)
  have hftnodup : (s.field_types.map Prod.fst).Nodup := by
    have : s.field_types.map Prod.fst = s.fieldnames := by
      simp [Schema.field_types, Schema.fieldnames]
    rw [this]
    exact hnodup
  have hfields2 : List.Forall₂ (fun (f : Ty × String) v => f.1.coerce v = .ok v)
      s.fields vs := by
    have h0 : List.Forall₂ (fun (t : Ty) v => t.coerce v = .ok v)
        (s.fields.map Prod.fst) vs := hco
    exact List.forall₂_map_left_iff.mp h0
  have hmemco := forall2_mem_left hfields2
  have hP : List.Forall₂ (fun (f : Ty × String) v =>
      s.field_types.find? (fun q => q.1 == f.2) = some (f.2, f.1) ∧
        f.1.coerce v = .ok v) s.fields vs := by
    refine List.Forall₂.imp (fun f v hx => ⟨?_, hx.2⟩) hmemco
    exact find_self_of_nodup s.field_types hftnodup (f.2, f.1)
      (List.mem_map_of_mem (fun p => (p.2, p.1)) hx.1)
  have hQ : List.Forall₂ (fun (n : String) v => ∃ t : Ty,
      s.field_types.find? (fun q => q.1 == n) = some (n, t) ∧ t.coerce v = .ok v)
      s.fieldnames vs := by
    simp only [Schema.fieldnames]
    rw [List.forall₂_map_left_iff]
    exact List.Forall₂.imp (fun f v hx => ⟨f.1, hx.1, hx.2⟩) hP
  have hzipmem : ∀ p ∈ s.fieldnames.zip vs, ∃ t : Ty,
      s.field_types.find? (fun q => q.1 == p.1) = some (p.1, t) ∧
        t.coerce p.2 = .ok p.2 := by
    intro p hp
    obtain ⟨a, b⟩ := p
    exact List.forall₂_zip hQ hp
  have hconv : convertAll s.field_types (s.fieldnames.zip vs) =
      .ok (s.fieldnames.zip vs) :=
    convertAll_fixed s.field_types _ hzipmem
  have hzf : List.Forall₂ (fun n v =>
      (s.fieldnames.zip vs).find? (fun p => p.1 == n) = some (n, v))
      s.fieldnames vs := by
    have hmem2 := forall2_zip_mem s.fieldnames vs (by omega)
    refine List.Forall₂.imp (fun n v hm => ?_) hmem2
    exact find_self_of_nodup _ (by rw [hkeys]; exact hnodup) (n, v) hm
  have hlook : fieldLookup (s.fieldnames.zip vs) s.fieldnames = some vs :=
    fieldLookup_of_forall2 _ hzf
  have hgen : structNewGeneral s vs [] = .ok (Val.inst s.id vs) := by
    unfold structNewGeneral
    rw [if_neg (by simp [hlen])]
    simp only [hdict, hconv, hlook]
  cases vs with
  | nil => exact hgen
  | cons a tl =>
    cases tl with
    | nil =>
      have hi : isInstOf s.id a = false := hni a (List.mem_cons_self _ _)
      simp only [structNew, hi]
      simp only [Bool.false_eq_true, if_false]
      exact hgen
    | cons b tl2 => exact hgen

/-- Claim C1: for a struct type whose field types round-trip on their valid
values, are fixed by their own constructor on valid values (as `int` and every
struct type are), and -- being pre-existing classes -- have no valid value that
is an instance of the struct class being defined, unpacking the bytes packed
from any valid instance yields that instance back: `T.unpack(v.pack()) == v`. -/
theorem struct_roundtrip (s : Schema)
    (hnodup : s.fieldnames.Nodup)
    (hrt : ∀ t ∈ s.fieldtypes, RoundTrips t)
    (hco : ∀ t ∈ s.fieldtypes, CoerceCanonical t)
    (hfr : ∀ t ∈ s.fieldtypes, FreshFor t s.id)
    (v : Val) (hv : structValid s v = true) :
    (mkStructTy s).unpack (structPack s v) = .ok v := by
  cases v with
  | int n => simp [structValid] at hv
  | bytes bs => simp [structValid] at hv
  | inst i vs =>
    simp only [structValid, Bool.and_eq_true, beq_iff_eq] at hv
    obtain ⟨⟨hid, hlen⟩, hval⟩ := hv
    subst hid
    have hforall := allValid_forall2 s.fieldtypes vs hval
    have hmem := forall2_mem_left hforall
    have hco2 : List.Forall₂ (fun (t : Ty) v2 => t.coerce v2 = .ok v2)
        s.fieldtypes vs :=
      List.Forall₂.imp (fun t v2 hx => hco t hx.1 v2 hx.2) hmem
    have hrt2 : List.Forall₂ (fun (t : Ty) v2 =>
        ∀ r2 : List Nat, t.unpack_from (t.pack v2 ++ r2) = .ok (v2, r2))
        s.fieldtypes vs :=
      List.Forall₂.imp (fun t v2 hx r2 => hrt t hx.1 v2 r2 hx.2) hmem
    have hni : ∀ x ∈ vs, isInstOf s.id x = false := by
      intro x hx
      obtain ⟨t, ht, hvx⟩ := forall2_exists_left hforall x hx
      exact hfr t ht x hvx
    have hup : unpackVals s.fieldtypes (packFields s.fieldtypes vs ++ []) [] =
        .ok ([] ++ vs, []) := unpackVals_pack hrt2 [] []
    rw [List.append_nil, List.nil_append] at hup
    have hnew : structNew s vs [] = .ok (Val.inst s.id vs) :=
      structNew_positional s vs hnodup hlen hco2 hni
    have hsu : structUnpackFrom s (packFields s.fieldtypes vs) =
        .ok (Val.inst s.id vs, []) := by
      simp only [structUnpackFrom, hup, hnew]
    have hpk : structPack s (Val.inst s.id vs) = packFields s.fieldtypes vs := rfl
    simp [Ty.unpack, mkStructTy, hpk, hsu]

/-- Witness for C1: a two-byte-field struct round-trips the concrete instance
with field values 7 and 9. -/
theorem struct_roundtrip_witness :
    (mkStructTy pointSchema).unpack
        (structPack pointSchema (Val.inst 1 [Val.int 7, Val.int 9])) =
      .ok (Val.inst 1 [Val.int 7, Val.int 9]) :=
  struct_roundtrip pointSchema (by decide)
    (by
      intro t ht
      have h1 : t = byteTy := by simpa [pointSchema, Schema.fieldtypes] using ht
      rw [h1]
      exact byteTy_roundTrips)
    (by
      intro t ht
      have h1 : t = byteTy := by simpa [pointSchema, Schema.fieldtypes] using ht
      rw [h1]
      exact byteTy_coerceCanonical)
    (by
      intro t ht
      have h1 : t = byteTy := by simpa [pointSchema, Schema.fieldtypes] using ht
      rw [h1]
      exact byteTy_freshFor 1)
    (Val.inst 1 [Val.int 7, Val.int 9]) (by decide)
